import Mathlib

/-!
Shallow embedding of `src/BasicPlayingCard.py` (the working file of the
BasicCard repository; `src/BasicCard.py` is an empty draft of the same
classes).  The embedding follows the Python source line by line:

* A Python `dict` passed to `CardVariation.__init__` is modelled as an
  association list `List (String × β)`; the constructor copies every entry
  onto a fresh attribute-bag object with `setattr`, so attribute lookup is
  `getattrD` (last binding wins, as `setattr` overwrites) and `dir()` is
  `dirAttrs` (the sorted list of distinct attribute names; `dir` returns a
  sorted list and attribute names are unique).
* The regex filter `re.search(r"^[A-Z]*.*[A-Z]$", name)` used by
  `Deck.__init__` is modelled by `matchesAttrKey`: after removing a single
  trailing newline (which `$` tolerates) the name must be nonempty, contain
  no newline (`.` and `[A-Z]` never match one) and end in an ASCII capital.
  The dunder attributes contributed by `object`/`type` all end in `_` or a
  lowercase letter, so they are exactly the names this filter removes.
* `random.shuffle` (CPython) runs Fisher-Yates: for `i` from `len-1` down
  to `1` it swaps `x[i]` with `x[j]`, `j = randbelow(i+1)`.  The random
  draws are modelled by an explicit tape `f : Nat → Nat`, with
  `j = f i % (i+1)`.
* `list.pop()` on an empty list raises `IndexError`; fallible operations
  therefore return `Option`, `none` standing for the raised exception.
* Machine integers: Python ints are unbounded, so `Int` is used where a
  value can go negative (`Deck._length` arithmetic, `draw`'s argument,
  `search`'s `-1` sentinel).
-/

def PRIORITY_VALUE : String := "PRI_VALU"

def PRIORITY_RANK : String := "PRI_RANK"

def PRIORITY_NEUTRAL : String := "PRI_NEUT"

def SUBSTITUTION_VALUE : String := "{VALUE}"

def SUBSTITUTION_RANK : String := "{RANK}"

def DEFAULT_NAME_SCHEME : String := SUBSTITUTION_VALUE ++ " OF " ++ SUBSTITUTION_RANK

/-- Model of `re.search(ATTRIBUTE_SEARCH_KEY, s) is not None` where
`ATTRIBUTE_SEARCH_KEY = r"^[A-Z]*.*[A-Z]$"`: the pattern matches `s` iff,
after discarding one optional trailing newline (the final `$` may sit just
before it), the remainder is nonempty, free of newlines (neither `[A-Z]`
nor `.` matches a newline) and ends with an ASCII uppercase letter. -/
def matchesAttrKey (s : String) : Bool :=
  let t := if s.data.getLast? = some '\n' then s.data.dropLast else s.data
  !t.isEmpty &&
    (match t.getLast? with
     | some c => decide (65 ≤ c.toNat) && decide (c.toNat ≤ 90)
     | none => false) &&
    !t.contains '\n'

/-- Attribute lookup on a bag populated by `setattr` in list order: the last
binding for a key wins; `d` is returned when the key is absent (the Python
code never hits that case, every key it looks up came from `dir`). -/
def getattrD {β : Type} (m : List (String × β)) (k : String) (d : β) : β :=
  match (m.filter fun p => p.1 == k).getLast? with
  | some p => p.2
  | none => d

/-- Keys of an attribute bag with duplicates removed (a Python object has a
single slot per attribute name). -/
def uniqueKeys : List String → List String
  | [] => []
  | k :: ks => if ks.contains k then uniqueKeys ks else k :: uniqueKeys ks

/-- Lexicographic code-point comparison of strings, as Python's `<` on
`str`, which is the order `dir()` sorts attribute names by. -/
def strLtB : List Char → List Char → Bool
  | [], [] => false
  | [], _ :: _ => true
  | _ :: _, [] => false
  | a :: as, b :: bs =>
    if a.toNat < b.toNat then true
    else if b.toNat < a.toNat then false
    else strLtB as bs

/-- Insert a string into a sorted list, keeping ascending order. -/
def insertSorted (s : String) : List String → List String
  | [] => [s]
  | t :: ts => if strLtB s.data t.data then s :: t :: ts else t :: insertSorted s ts

/-- Ascending insertion sort by code-point order, modelling the sorted
output of `dir()`. -/
def sortStrings : List String → List String
  | [] => []
  | s :: rest => insertSorted s (sortStrings rest)

/-- Model of `dir(bag)` for one of the attribute bags built by
`CardVariation.__init__`: the sorted list of the distinct attribute names.
The inherited dunder names (and `mro`) are omitted because every one of
them is rejected by `matchesAttrKey`, the only context `dir` is used in. -/
def dirAttrs {β : Type} (m : List (String × β)) : List String :=
  sortStrings (uniqueKeys (m.map Prod.fst))

/-- Model of `CardVariation`: the six attributes set by `__init__`.  The
four bags keep the constructor's dictionaries as association lists. -/
structure CardVariation where
  VALUES : List (String × String)
  RANKS : List (String × String)
  VALUE_HIERARCHY : List (String × Int)
  RANK_HIERARCHY : List (String × Int)
  PRIORITY : String
  NAME_SCHEME : String
deriving DecidableEq

/-- Model of `CardVariation.__init__`: it copies every entry of the four
dictionaries onto the bags and stores priority and name scheme.  It
performs no validation of any kind, so it is total. -/
def CardVariation.init (cardValues cardRanks : List (String × String))
    (valueHierarchy rankHierarchy : List (String × Int))
    (priority nameScheme : String) : CardVariation :=
  { VALUES := cardValues, RANKS := cardRanks,
    VALUE_HIERARCHY := valueHierarchy, RANK_HIERARCHY := rankHierarchy,
    PRIORITY := priority, NAME_SCHEME := nameScheme }

def STANDARD_52_VALUES : List (String × String) :=
  [("ACE", "A"), ("TWO", "2"), ("THREE", "3"), ("FOUR", "4"),
   ("FIVE", "5"), ("SIX", "6"), ("SEVEN", "7"), ("EIGHT", "8"),
   ("NINE", "9"), ("TEN", "10"), ("JACK", "J"), ("QUEEN", "Q"), ("KING", "K")]

def STANDARD_52_RANKS : List (String × String) :=
  [("SPADES", "♤"), ("CLUBS", "♧"),
   ("HEARTS", "♥"), ("DIAMONDS", "♦")]

def STANDARD_52_VALUE_HIERARCHY : List (String × Int) :=
  [("ACE", 13), ("TWO", 1), ("THREE", 2), ("FOUR", 3),
   ("FIVE", 4), ("SIX", 5), ("SEVEN", 6), ("EIGHT", 7),
   ("NINE", 8), ("TEN", 9), ("JACK", 10), ("QUEEN", 11), ("KING", 12)]

def STANDARD_52_RANK_HIERARCHY : List (String × Int) :=
  [("SPADES", 4), ("CLUBS", 1), ("HEARTS", 3), ("DIAMONDS", 2)]

def STANDARD_52_NAME_SCHEME : String := SUBSTITUTION_VALUE ++ SUBSTITUTION_RANK

def STANDARD_52 : CardVariation :=
  CardVariation.init STANDARD_52_VALUES STANDARD_52_RANKS
    STANDARD_52_VALUE_HIERARCHY STANDARD_52_RANK_HIERARCHY
    PRIORITY_NEUTRAL STANDARD_52_NAME_SCHEME

/-- Model of `nameScheme.format(VALUE=value, RANK=rank)` on the character
list of the scheme: a single left-to-right pass replacing each occurrence
of the field `VALUE` or `RANK` in braces; substituted text is not
re-scanned, exactly as `str.format`.  (The error behaviour of `format` on
malformed schemes is out of scope: both schemes in the source are
well-formed.) -/
def substFmt (v r : String) : List Char → List Char
  | '\x7b' :: 'V' :: 'A' :: 'L' :: 'U' :: 'E' :: '\x7d' :: rest => v.data ++ substFmt v r rest
  | '\x7b' :: 'R' :: 'A' :: 'N' :: 'K' :: '\x7d' :: rest => r.data ++ substFmt v r rest
  | c :: cs => c :: substFmt v r cs
  | [] => []

/-- String-level wrapper of `substFmt`. -/
def pyFormat (scheme v r : String) : String :=
  (substFmt v r scheme.data).asString

/-- Model of `Card`: the four data attributes of the Python object (the
`_image` attribute is always `None` in the source and is omitted). -/
structure Card where
  value : String
  rank : String
  name : String
  cardVariation : CardVariation
deriving DecidableEq

/-- Model of `Card.__init__`: stores value, rank and variation; when no
explicit name is passed the name is derived from the variation's scheme. -/
def Card.init (cardVariation : CardVariation) (value rank : String)
    (name : Option String) : Card :=
  { value := value, rank := rank,
    name := match name with
      | some n => n
      | none => pyFormat cardVariation.NAME_SCHEME value rank,
    cardVariation := cardVariation }

/-- Model of `Card.__eq__`: value and rank tokens only; the name, image and
variation do not take part in identity. -/
def cardEq (a b : Card) : Bool :=
  a.value == b.value && a.rank == b.rank

/-- Swap of two positions of a list, modelling
`x[i], x[j] = x[j], x[i]` (both reads happen before both writes).  Outside
bounds the list is returned unchanged; Fisher-Yates only produces in-bound
indices. -/
def listSwap {α : Type} (l : List α) (i j : Nat) : List α :=
  match l[i]?, l[j]? with
  | some a, some b => (l.set i b).set j a
  | some _, none => l
  | none, _ => l

/-- Rounds of CPython's `random.shuffle`: the call with first index `n`
performs the swaps for `i = n, n-1, ..., 1`; the random draw `randbelow
(i+1)` is read off the tape as `f i % (i+1)`. -/
def shuffleRounds {α : Type} (f : Nat → Nat) : Nat → List α → List α
  | 0, l => l
  | i + 1, l => shuffleRounds f i (listSwap l (i + 1) (f (i + 1) % (i + 2)))

/-- Model of `random.shuffle(l)` with random tape `f`. -/
def randomShuffle {α : Type} (f : Nat → Nat) (l : List α) : List α :=
  shuffleRounds f (l.length - 1) l

/-- Model of `Deck`: the four instance attributes set by `Deck.__init__`.
`length` is `Int` because `draw` subtracts its (possibly negative) argument
from it with plain Python integer arithmetic. -/
structure Deck where
  deck : List Card
  length : Int
  cardVariation : CardVariation
  randomInit : Bool
deriving DecidableEq

/-- The list comprehension of `Deck.__init__`: one `Card` per pair of a
value attribute and a rank attribute, outer loop over `dir(VALUES)`, inner
loop over `dir(RANKS)`, both filtered by the attribute regex. -/
def buildDeck (cardVariation : CardVariation) : List Card :=
  ((dirAttrs cardVariation.VALUES).filter matchesAttrKey).flatMap fun cardValue =>
    ((dirAttrs cardVariation.RANKS).filter matchesAttrKey).map fun cardRank =>
      Card.init cardVariation
        (getattrD cardVariation.VALUES cardValue "")
        (getattrD cardVariation.RANKS cardRank "") none

/-- Model of `Deck.__init__(cardVariation, randomInit)`: builds the cross
product, records its length (computed before any shuffling) and the flag,
then shuffles in place when `randomInit` is true; `f` is the random tape
consumed by that shuffle. -/
def Deck.init (cardVariation : CardVariation) (randomInit : Bool)
    (f : Nat → Nat) : Deck :=
  let d := buildDeck cardVariation
  { deck := if randomInit then randomShuffle f d else d,
    length := (d.length : Int),
    cardVariation := cardVariation,
    randomInit := randomInit }

/-- Model of `Deck.getDeckSize` (and `Deck.__len__`): returns the stored
`_length` counter, not the physical list length. -/
def Deck.getDeckSize (s : Deck) : Int :=
  s.length

/-- Model of `Deck.setRandomInit`: updates the flag only. -/
def Deck.setRandomInit (s : Deck) (randomInit : Bool) : Deck :=
  { s with randomInit := randomInit }

/-- The `for i in range(self._length)` loop body of `Deck.search`, run on
the materialized index list: the first index whose card equals the query is
returned; an index beyond the physical list raises `IndexError` (`none`). -/
def searchLoop (searchCard : Card) (deck : List Card) : List Nat → Option Int
  | [] => some (-1)
  | i :: rest =>
    match deck[i]? with
    | none => none
    | some c => if cardEq searchCard c then some (i : Int) else searchLoop searchCard deck rest

/-- Model of `Deck.search(searchCard)`: linear scan of the first `_length`
positions, `-1` when no card matches. -/
def Deck.search (s : Deck) (searchCard : Card) : Option Int :=
  searchLoop searchCard s.deck (List.range s.length.toNat)

/-- The pop loop of `Deck.draw`: `k` iterations of
`drawnCards.append(self._deck.pop())`; `none` models the `IndexError`
raised by popping an empty list. -/
def popLoop : Nat → List Card → List Card → Option (List Card × List Card)
  | 0, drawn, deck => some (drawn, deck)
  | k + 1, drawn, deck =>
    match deck.getLast? with
    | none => none
    | some c => popLoop k (drawn ++ [c]) deck.dropLast

/-- Model of `Deck.draw(numCards)`: when `_length >= numCards` the counter
is decremented by `numCards` and `range(numCards)` (empty for
non-positive `numCards`, hence `Int.toNat`) pops are run; the success flag
is `len(drawnCards) > 0` in every path. -/
def Deck.draw (s : Deck) (numCards : Int) : Option (Bool × List Card × Deck) :=
  if numCards ≤ s.length then
    match popLoop numCards.toNat [] s.deck with
    | none => none
    | some (drawn, rest) =>
      some (decide (0 < drawn.length), drawn,
            { s with deck := rest, length := s.length - numCards })
  else
    some (false, [], s)

/-- Model of `Deck.shuffle`: Fisher-Yates on the remaining cards when the
counter is positive, otherwise nothing happens. -/
def Deck.shuffle (s : Deck) (f : Nat → Nat) : Deck :=
  if 0 < s.length then { s with deck := randomShuffle f s.deck } else s

/-- Model of `Deck.reset`: re-runs `__init__` with the stored variation and
the currently stored `randomInit` flag; `f` is the tape for the rebuild's
optional shuffle. -/
def Deck.reset (s : Deck) (f : Nat → Nat) : Deck :=
  Deck.init s.cardVariation s.randomInit f

/-- States reachable from `Deck.__init__(v, r)` by the public operations
used within their stated constraints: `draw` with a non-negative argument,
`shuffle`, `reset` and `setRandomInit` (with arbitrary random tapes). -/
inductive Reachable (v : CardVariation) (r : Bool) : Deck → Prop
  | init (f : Nat → Nat) : Reachable v r (Deck.init v r f)
  | draw (s : Deck) (n : Int) (b : Bool) (cards : List Card) (t : Deck) :
      Reachable v r s → 0 ≤ n → Deck.draw s n = some (b, cards, t) → Reachable v r t
  | shuffle (s : Deck) (f : Nat → Nat) : Reachable v r s → Reachable v r (Deck.shuffle s f)
  | reset (s : Deck) (f : Nat → Nat) : Reachable v r s → Reachable v r (Deck.reset s f)
  | setRandomInit (s : Deck) (b : Bool) : Reachable v r s → Reachable v r (Deck.setRandomInit s b)

/-- Spec-side validity predicate on a variation's configuration, following
the spec's words: every key of `valueHierarchy` appears in `values` and
every key of `rankHierarchy` appears in `ranks`. -/
def hierarchyKeysConsistent (v : CardVariation) : Bool :=
  ((v.VALUE_HIERARCHY.map Prod.fst).all fun k => (v.VALUES.map Prod.fst).contains k) &&
  ((v.RANK_HIERARCHY.map Prod.fst).all fun k => (v.RANKS.map Prod.fst).contains k)

/-- Tiny one-value, one-rank variation used as a concrete test input. -/
def miniVariation : CardVariation :=
  CardVariation.init [("ACE", "A")] [("SPADES", "♤")]
    [("ACE", 13)] [("SPADES", 4)] PRIORITY_NEUTRAL STANDARD_52_NAME_SCHEME

/-- Variation whose single value key is lowercase, so the attribute regex
of `Deck.__init__` rejects it. -/
def lowerKeyVariation : CardVariation :=
  CardVariation.init [("ace", "A")] [("SPADES", "♤")]
    [] [] PRIORITY_NEUTRAL DEFAULT_NAME_SCHEME

/-- Variation with a hierarchy key (`FOO`) absent from its values mapping:
the configuration the spec calls a construction-time error. -/
def invalidHierVariation : CardVariation :=
  CardVariation.init [("ACE", "A")] [("SPADES", "♤")]
    [("FOO", 1)] [] PRIORITY_NEUTRAL STANDARD_52_NAME_SCHEME

/-- Variation with empty values and ranks: builds an empty deck. -/
def emptyVariation : CardVariation :=
  CardVariation.init [] [] [] [] PRIORITY_NEUTRAL DEFAULT_NAME_SCHEME

/-- Concrete unshuffled one-card deck over `miniVariation`. -/
def miniDeck : Deck :=
  Deck.init miniVariation false (fun _ => 0)

/-- Concrete empty deck over `emptyVariation`. -/
def emptyDeck : Deck :=
  Deck.init emptyVariation false (fun _ => 0)

/-- Whether position `j` of `deck` holds a card equal (per `Card.__eq__`)
to `c`; out-of-range positions hold no match. -/
def matchAt (c : Card) (deck : List Card) (j : Nat) : Bool :=
  match deck[j]? with
  | some d => cardEq c d
  | none => false

/-! ### Support lemmas -/

theorem listSwap_perm {α : Type} [DecidableEq α] (l : List α) (i j : Nat) :
    (listSwap l i j).Perm l := by
  rcases hi : l[i]? with _ | a
  · simp [listSwap, hi]
  rcases hj : l[j]? with _ | b
  · simp [listSwap, hi, hj]
  obtain ⟨hil, hia⟩ := List.getElem?_eq_some_iff.mp hi
  obtain ⟨hjl, hjb⟩ := List.getElem?_eq_some_iff.mp hj
  have hswap : listSwap l i j = (l.set i b).set j a := by simp [listSwap, hi, hj]
  rw [hswap, List.perm_iff_count]
  intro x
  have hjl2 : j < (l.set i b).length := by simpa using hjl
  rw [List.count_set a x (l.set i b) j hjl2, List.count_set b x l i hil]
  by_cases hij : i = j
  · subst hij
    have hab : a = b := by rw [hi] at hj; exact Option.some.inj hj
    subst hab
    rw [List.getElem_set_self hjl2, hia]
    by_cases hax : a = x
    · have hpos : 0 < List.count x l := by
        rw [List.count_pos_iff]
        exact hax ▸ hia ▸ List.getElem_mem hil
      simp [hax]
      omega
    · simp [hax]
  · have hgj : (l.set i b)[j] = l[j] := List.getElem_set_ne hij hjl2
    rw [hgj, hjb, hia]
    by_cases hax : a = x
    · have hpos : 0 < List.count x l := by
        rw [List.count_pos_iff]
        exact hax ▸ hia ▸ List.getElem_mem hil
      by_cases hbx : b = x <;> simp [hax, hbx] <;> omega
    · by_cases hbx : b = x <;> simp [hax, hbx]

theorem shuffleRounds_perm {α : Type} [DecidableEq α] (f : Nat → Nat) :
    ∀ (n : Nat) (l : List α), (shuffleRounds f n l).Perm l
  | 0, _ => List.Perm.refl _
  | n + 1, l =>
    (shuffleRounds_perm f n (listSwap l (n + 1) (f (n + 1) % (n + 2)))).trans
      (listSwap_perm l (n + 1) (f (n + 1) % (n + 2)))

theorem randomShuffle_perm {α : Type} [DecidableEq α] (f : Nat → Nat) (l : List α) :
    (randomShuffle f l).Perm l :=
  shuffleRounds_perm f (l.length - 1) l

theorem randomShuffle_length {α : Type} [DecidableEq α] (f : Nat → Nat) (l : List α) :
    (randomShuffle f l).length = l.length :=
  (randomShuffle_perm f l).length_eq

theorem popLoop_spec :
    ∀ (k : Nat) (drawn deck : List Card), k ≤ deck.length →
      popLoop k drawn deck =
        some (drawn ++ (deck.drop (deck.length - k)).reverse,
              deck.take (deck.length - k)) := by
  intro k
  induction k with
  | zero =>
    intro drawn deck _
    simp [popLoop]
  | succ k ih =>
    intro drawn deck h
    have hne : deck ≠ [] := by
      intro hnil
      rw [hnil] at h
      simp at h
    simp only [popLoop, List.getLast?_eq_getLast deck hne]
    have hlen : deck.dropLast.length = deck.length - 1 := List.length_dropLast deck
    have hk : k ≤ deck.dropLast.length := by omega
    rw [ih (drawn ++ [deck.getLast hne]) deck.dropLast hk]
    have hm : deck.dropLast.length - k = deck.length - (k + 1) := by omega
    have hmle : deck.length - (k + 1) ≤ deck.dropLast.length := by omega
    have htake : deck.dropLast.take (deck.length - (k + 1)) =
        deck.take (deck.length - (k + 1)) := by
      rw [List.dropLast_eq_take, List.take_take]
      congr 1
      omega
    have hdrop : deck.drop (deck.length - (k + 1)) =
        deck.dropLast.drop (deck.length - (k + 1)) ++ [deck.getLast hne] := by
      rw [← List.drop_append_of_le_length hmle, List.dropLast_append_getLast hne]
    rw [hm, htake, hdrop, List.reverse_append]
    simp [List.append_assoc]

theorem insertSorted_perm (s : String) (l : List String) :
    (insertSorted s l).Perm (s :: l) := by
  induction l with
  | nil => exact List.Perm.refl _
  | cons t ts ih =>
    rw [insertSorted]
    split
    · exact List.Perm.refl _
    · exact (ih.cons t).trans (List.Perm.swap s t ts)

theorem sortStrings_perm (l : List String) : (sortStrings l).Perm l := by
  induction l with
  | nil => exact List.Perm.refl _
  | cons s rest ih =>
    rw [sortStrings]
    exact (insertSorted_perm s (sortStrings rest)).trans (ih.cons s)

theorem uniqueKeys_eq_of_nodup : ∀ {l : List String}, l.Nodup → uniqueKeys l = l := by
  intro l h
  induction l with
  | nil => rfl
  | cons k ks ih =>
    have hmem : k ∉ ks := (List.nodup_cons.mp h).1
    rw [uniqueKeys, if_neg (by simpa using hmem), ih (List.nodup_cons.mp h).2]

theorem dirAttrs_perm_of_nodup {β : Type} {m : List (String × β)}
    (h : (m.map Prod.fst).Nodup) : (dirAttrs m).Perm (m.map Prod.fst) := by
  rw [dirAttrs, uniqueKeys_eq_of_nodup h]
  exact sortStrings_perm _

theorem buildDeck_length (v : CardVariation) :
    (buildDeck v).length =
      ((dirAttrs v.VALUES).filter matchesAttrKey).length *
      ((dirAttrs v.RANKS).filter matchesAttrKey).length := by
  rw [buildDeck, List.length_flatMap]
  have hmap : ((dirAttrs v.VALUES).filter matchesAttrKey).map
        (List.length ∘ fun cardValue =>
          ((dirAttrs v.RANKS).filter matchesAttrKey).map fun cardRank =>
            Card.init v (getattrD v.VALUES cardValue "") (getattrD v.RANKS cardRank "") none) =
      List.replicate ((dirAttrs v.VALUES).filter matchesAttrKey).length
        ((dirAttrs v.RANKS).filter matchesAttrKey).length := by
    simp only [Function.comp_def, List.length_map, List.map_const']
  rw [hmap, List.sum_replicate, smul_eq_mul]

theorem init_length (cv : CardVariation) (r : Bool) (f : Nat → Nat) :
    (Deck.init cv r f).length = ((Deck.init cv r f).deck.length : Int) := by
  rcases r with _ | _ <;> simp [Deck.init, randomShuffle_length]

theorem draw_spec (s : Deck) (n : Int) (hwf : s.length = (s.deck.length : Int))
    (h0 : 0 ≤ n) (hn : n ≤ s.length) :
    Deck.draw s n = some (decide (0 < n),
      (s.deck.drop (s.deck.length - n.toNat)).reverse,
      { s with deck := s.deck.take (s.deck.length - n.toNat),
               length := s.length - n }) := by
  have hk : n.toNat ≤ s.deck.length := by omega
  rw [Deck.draw, if_pos hn, popLoop_spec n.toNat [] s.deck hk]
  have hflag : decide (0 < ((s.deck.drop (s.deck.length - n.toNat)).reverse).length) =
      decide (0 < n) := by
    apply decide_eq_decide.mpr
    simp only [List.length_reverse, List.length_drop]
    omega
  simp only [List.nil_append, hflag]

theorem reachable_inv {v : CardVariation} {r : Bool} {s : Deck} (h : Reachable v r s) :
    s.length = (s.deck.length : Int) ∧ s.cardVariation = v := by
  induction h with
  | init f => exact ⟨init_length v r f, rfl⟩
  | draw s n b cards t hs h0 hdraw ih =>
    rw [Deck.draw] at hdraw
    split at hdraw
    · have hk : n.toNat ≤ s.deck.length := by omega
      rw [popLoop_spec n.toNat [] s.deck hk] at hdraw
      simp only [Option.some.injEq, Prod.mk.injEq] at hdraw
      obtain ⟨-, -, ht⟩ := hdraw
      subst ht
      refine ⟨?_, ih.2⟩
      simp only [List.length_take]
      omega
    · obtain ⟨-, -, ht⟩ : False = b ∧ [] = cards ∧ s = t := by
        simpa using hdraw
      subst ht
      exact ih
  | shuffle s f hs ih =>
    rw [Deck.shuffle]
    split
    · exact ⟨by simpa [randomShuffle_length] using ih.1, ih.2⟩
    · exact ih
  | reset s f hs ih =>
    exact ⟨init_length s.cardVariation s.randomInit f, ih.2⟩
  | setRandomInit s b hs ih =>
    exact ih

theorem searchLoop_eq_neg_one (c : Card) (deck : List Card) :
    ∀ (k i : Nat), i + k ≤ deck.length →
      (∀ j, i ≤ j → j < i + k → matchAt c deck j = false) →
      searchLoop c deck (List.range' i k) = some (-1) := by
  intro k
  induction k with
  | zero =>
    intro i _ _
    rfl
  | succ k ih =>
    intro i h hnone
    rw [List.range'_succ]
    have hi : i < deck.length := by omega
    have hd := List.getElem?_eq_getElem hi
    have hno : cardEq c deck[i] = false := by
      have h1 := hnone i le_rfl (by omega)
      rw [matchAt, hd] at h1
      exact h1
    simp only [searchLoop, hd, hno, Bool.false_eq_true, if_false]
    exact ih (i + 1) (by omega) (fun j hj1 hj2 => hnone j (by omega) (by omega))

theorem searchLoop_eq_first (c : Card) (deck : List Card) :
    ∀ (k i i0 : Nat), i + k ≤ deck.length → i ≤ i0 → i0 < i + k →
      matchAt c deck i0 = true →
      (∀ j, i ≤ j → j < i0 → matchAt c deck j = false) →
      searchLoop c deck (List.range' i k) = some (i0 : Int) := by
  intro k
  induction k with
  | zero =>
    intro i i0 _ hle hlt
    omega
  | succ k ih =>
    intro i i0 hlen hle hlt hmatch hfirst
    rw [List.range'_succ]
    have hi : i < deck.length := by omega
    have hd := List.getElem?_eq_getElem hi
    by_cases hii : i0 = i
    · subst hii
      simp only [matchAt, hd] at hmatch
      simp only [searchLoop, hd, hmatch, if_true]
    · have hno : matchAt c deck i = false := hfirst i le_rfl (by omega)
      simp only [matchAt, hd] at hno
      simp only [searchLoop, hd, hno, Bool.false_eq_true, if_false]
      exact ih (i + 1) i0 (by omega) (by omega) (by omega) hmatch
        (fun j hj1 hj2 => hfirst j (by omega) hj2)

/-! ### Claim theorems -/

/-- Claim C1 (amended): building a deck from a variation whose value and
rank mappings have distinct keys (as Python dict keys always are) yields
one card per pair of the cross product of the *pattern-matching* entries:
its size is the number of value keys accepted by the attribute regex times
the number of rank keys accepted by it.  (The original claim, size equal to
`|values| × |ranks|` for every variation, fails when a key is rejected by
the regex; see the counterexample.) -/
theorem claim_C1_deck_size (v : CardVariation)
    (hv : (v.VALUES.map Prod.fst).Nodup) (hr : (v.RANKS.map Prod.fst).Nodup) :
    (buildDeck v).length =
      ((v.VALUES.map Prod.fst).filter matchesAttrKey).length *
      ((v.RANKS.map Prod.fst).filter matchesAttrKey).length := by
  rw [buildDeck_length v]
  rw [((dirAttrs_perm_of_nodup hv).filter matchesAttrKey).length_eq,
      ((dirAttrs_perm_of_nodup hr).filter matchesAttrKey).length_eq]

/-- Claim C1, counterexample: for the variation with the single value key
`ace` (rejected by the attribute regex `^[A-Z]*.*[A-Z]$` because it does
not end in an uppercase letter), the deck is empty although
`|values| × |ranks| = 1`. -/
theorem claim_C1_counterexample :
    (buildDeck lowerKeyVariation).length ≠
      lowerKeyVariation.VALUES.length * lowerKeyVariation.RANKS.length := by
  decide

/-- Claim C1, witness of the amended theorem at `miniVariation`. -/
theorem claim_C1_witness :
    (miniVariation.VALUES.map Prod.fst).Nodup ∧
    (miniVariation.RANKS.map Prod.fst).Nodup ∧
    (buildDeck miniVariation).length =
      ((miniVariation.VALUES.map Prod.fst).filter matchesAttrKey).length *
      ((miniVariation.RANKS.map Prod.fst).filter matchesAttrKey).length :=
  ⟨by decide, by decide, claim_C1_deck_size miniVariation (by decide) (by decide)⟩

/-- Claim C2 (amended): on a consistent deck, for `0 ≤ n ≤ size`, `draw n`
removes exactly the last `n` cards, returns them in the order removed
(reverse of their position in the deck) and decrements the size counter by
`n`; the success indicator, however, is `len(drawnCards) > 0`, i.e. `true`
exactly when `0 < n` — `draw 0`, allowed by the original claim, reports
`false`.  (The original claim, indicator `true` for every `0 ≤ n ≤ size`,
fails at `n = 0`; see the counterexample.) -/
theorem claim_C2_draw_success (s : Deck) (n : Int)
    (hwf : s.getDeckSize = (s.deck.length : Int)) (h0 : 0 ≤ n)
    (hn : n ≤ s.getDeckSize) :
    Deck.draw s n = some (decide (0 < n),
      (s.deck.drop (s.deck.length - n.toNat)).reverse,
      { s with deck := s.deck.take (s.deck.length - n.toNat),
               length := s.length - n }) := by
  rw [Deck.getDeckSize] at hwf hn
  exact draw_spec s n hwf h0 hn

/-- Claim C2, counterexample: `draw 0` on the freshly built one-card deck
satisfies `0 ≤ 0 ≤ size` but returns the failure indicator `false` (the
claim demands `true`), though it does remove the last zero cards and leave
the size unchanged. -/
theorem claim_C2_counterexample :
    Deck.draw miniDeck 0 ≠ some (true, [], miniDeck) ∧
    Deck.draw miniDeck 0 = some (false, [], miniDeck) := by
  decide

/-- Claim C2, witness of the amended theorem: drawing one card from the
one-card deck. -/
theorem claim_C2_witness :
    miniDeck.getDeckSize = (miniDeck.deck.length : Int) ∧ (0 : Int) ≤ 1 ∧
    (1 : Int) ≤ miniDeck.getDeckSize ∧
    Deck.draw miniDeck 1 = some (decide ((0 : Int) < 1),
      (miniDeck.deck.drop (miniDeck.deck.length - (1 : Int).toNat)).reverse,
      { miniDeck with deck := miniDeck.deck.take (miniDeck.deck.length - (1 : Int).toNat),
                      length := miniDeck.length - 1 }) :=
  ⟨by decide, by decide, by decide,
   claim_C2_draw_success miniDeck 1 (by decide) (by decide) (by decide)⟩

/-- Claim C3: when the deck holds fewer than `n ≥ 0` cards, `draw n` is a
no-op: it returns the failure indicator and the empty list and leaves the
state (card sequence and size counter) untouched. -/
theorem claim_C3_insufficient_draw (s : Deck) (n : Int) (_h0 : 0 ≤ n)
    (hwf : s.getDeckSize = (s.deck.length : Int))
    (hlt : (s.deck.length : Int) < n) :
    Deck.draw s n = some (false, [], s) := by
  rw [Deck.getDeckSize] at hwf
  rw [Deck.draw, if_neg (by omega)]

/-- Claim C3, witness: `draw 100` against the one-card deck. -/
theorem claim_C3_witness :
    (0 : Int) ≤ 100 ∧ miniDeck.getDeckSize = (miniDeck.deck.length : Int) ∧
    ((miniDeck.deck.length : Int) < 100) ∧
    Deck.draw miniDeck 100 = some (false, [], miniDeck) :=
  ⟨by decide, by decide, by decide,
   claim_C3_insufficient_draw miniDeck 100 (by decide) (by decide) (by decide)⟩

/-- Claim C4: `shuffle` permutes the card sequence (preserving the
multiset), never changes the reported size, and is a no-op (not an error)
on an empty deck. -/
theorem claim_C4_shuffle_perm (s : Deck) (f : Nat → Nat) :
    ((Deck.shuffle s f).deck).Perm s.deck ∧
    (Deck.shuffle s f).getDeckSize = s.getDeckSize ∧
    (s.deck = [] → Deck.shuffle s f = s) := by
  refine ⟨?_, ?_, ?_⟩
  · rw [Deck.shuffle]
    split
    · exact randomShuffle_perm f s.deck
    · exact List.Perm.refl _
  · rw [Deck.shuffle]
    split <;> rfl
  · intro hnil
    rw [Deck.shuffle]
    split
    · rcases s with ⟨d, L, cv, ri⟩
      simp only at hnil
      subst hnil
      rfl
    · rfl

/-- Claim C4, witness at the empty deck, where the no-op implication
fires. -/
theorem claim_C4_witness :
    ((Deck.shuffle emptyDeck (fun _ => 0)).deck).Perm emptyDeck.deck ∧
    (Deck.shuffle emptyDeck (fun _ => 0)).getDeckSize = emptyDeck.getDeckSize ∧
    Deck.shuffle emptyDeck (fun _ => 0) = emptyDeck := by
  obtain ⟨h1, h2, h3⟩ := claim_C4_shuffle_perm emptyDeck (fun _ => 0)
  exact ⟨h1, h2, h3 (by rfl)⟩

/-- Claim C5: from any reachable deck state (any sequence of constrained
draws, shuffles, resets and flag updates after construction from `v`),
`reset` restores the reported size to the original full count, produces a
card multiset equal to the original build's multiset for the same
variation `v`, and is a fresh rebuild (`__init__`) using the `randomInit`
flag currently recorded. -/
theorem claim_C5_reset_restores {v : CardVariation} {r : Bool} {s : Deck}
    (h : Reachable v r s) (f : Nat → Nat) :
    (Deck.reset s f).getDeckSize = ((buildDeck v).length : Int) ∧
    ((Deck.reset s f).deck).Perm (buildDeck v) ∧
    (Deck.reset s f).randomInit = s.randomInit ∧
    Deck.reset s f = Deck.init v s.randomInit f := by
  have hv := (reachable_inv h).2
  rw [Deck.reset, hv]
  refine ⟨?_, ?_, rfl, rfl⟩
  · simp [Deck.init, Deck.getDeckSize]
  · rcases hri : s.randomInit with _ | _ <;>
      simp only [Deck.init, hri, if_true, if_false]
    · exact List.Perm.refl _
    · exact randomShuffle_perm f (buildDeck v)

/-- Claim C5, witness: reset of the freshly built one-card deck. -/
theorem claim_C5_witness :
    (Deck.reset miniDeck (fun _ => 0)).getDeckSize = ((buildDeck miniVariation).length : Int) ∧
    ((Deck.reset miniDeck (fun _ => 0)).deck).Perm (buildDeck miniVariation) ∧
    (Deck.reset miniDeck (fun _ => 0)).randomInit = miniDeck.randomInit ∧
    Deck.reset miniDeck (fun _ => 0) = Deck.init miniVariation miniDeck.randomInit (fun _ => 0) :=
  claim_C5_reset_restores (Reachable.init (fun _ => 0)) (fun _ => 0)

/-- Claim C6: on a consistent deck, when some position holds a card equal
(per `Card.__eq__`, value and rank tokens) to the query, `search` returns
the index of the first such position, a valid index of a matching card; when
no card matches, it returns the sentinel `-1`.  (`search` reads the state
and returns only an index, so the deck is unchanged by construction.) -/
theorem claim_C6_search (s : Deck) (c : Card)
    (hwf : s.getDeckSize = (s.deck.length : Int)) :
    ((∃ j, matchAt c s.deck j = true) →
      ∃ i0 : Nat, Deck.search s c = some (i0 : Int) ∧
        (∃ d, s.deck[i0]? = some d ∧ cardEq c d = true) ∧
        ∀ j, j < i0 → matchAt c s.deck j = false) ∧
    ((∀ d ∈ s.deck, cardEq c d = false) → Deck.search s c = some (-1)) := by
  rw [Deck.getDeckSize] at hwf
  have hrange : s.length.toNat = s.deck.length := by omega
  constructor
  · intro hex
    have hmatch : matchAt c s.deck (Nat.find hex) = true := Nat.find_spec hex
    have hfirst : ∀ j, j < Nat.find hex → matchAt c s.deck j = false := by
      intro j hj
      have := Nat.find_min hex hj
      simpa using this
    have hsome : ∃ d, s.deck[Nat.find hex]? = some d ∧ cardEq c d = true := by
      rcases hd : s.deck[Nat.find hex]? with _ | d
      · rw [matchAt, hd] at hmatch
        cases hmatch
      · rw [matchAt, hd] at hmatch
        exact ⟨d, rfl, hmatch⟩
    have hi0 : Nat.find hex < s.deck.length := by
      obtain ⟨d, hd, -⟩ := hsome
      exact (List.getElem?_eq_some_iff.mp hd).1
    refine ⟨Nat.find hex, ?_, hsome, hfirst⟩
    rw [Deck.search, hrange, List.range_eq_range']
    exact searchLoop_eq_first c s.deck s.deck.length 0 (Nat.find hex)
      (by omega) (Nat.zero_le _) (by omega) hmatch (fun j _ hj => hfirst j hj)
  · intro hnone
    rw [Deck.search, hrange, List.range_eq_range']
    apply searchLoop_eq_neg_one c s.deck s.deck.length 0 (by omega)
    intro j _ _
    rcases hd : s.deck[j]? with _ | d
    · rw [matchAt, hd]
    · rw [matchAt, hd]
      exact hnone d (List.getElem?_mem hd)

/-- Claim C6, witness: searching the one-card deck for an absent card
returns the sentinel `-1` (and, checked directly, searching for the present
card returns its index 0). -/
theorem claim_C6_witness :
    miniDeck.getDeckSize = (miniDeck.deck.length : Int) ∧
    Deck.search miniDeck (Card.init miniVariation "A" "♤" none) = some 0 ∧
    Deck.search miniDeck (Card.init miniVariation "Q" "♤" none) = some (-1) :=
  ⟨by decide, by decide,
   (claim_C6_search miniDeck (Card.init miniVariation "Q" "♤" none) (by decide)).2
     (by decide)⟩

/-- Claim C7: in every state reachable by the public operations within
their stated constraints, the reported size (`getDeckSize`) equals the
number of cards actually remaining in the sequence, and every successful
draw of `n ≥ 1` cards strictly decreases it. -/
theorem claim_C7_size_inv {v : CardVariation} {r : Bool} {s : Deck}
    (h : Reachable v r s) :
    s.getDeckSize = (s.deck.length : Int) ∧
    ∀ (n : Int) (b : Bool) (cards : List Card) (t : Deck),
      1 ≤ n → Deck.draw s n = some (b, cards, t) → b = true →
        t.getDeckSize < s.getDeckSize := by
  have hwf := (reachable_inv h).1
  refine ⟨hwf, ?_⟩
  intro n b cards t hn hdraw hb
  rw [Deck.draw] at hdraw
  split at hdraw
  · have hk : n.toNat ≤ s.deck.length := by omega
    rw [popLoop_spec n.toNat [] s.deck hk] at hdraw
    simp only [Option.some.injEq, Prod.mk.injEq] at hdraw
    obtain ⟨-, -, ht⟩ := hdraw
    subst ht
    simp only [Deck.getDeckSize]
    omega
  · simp only [Option.some.injEq, Prod.mk.injEq] at hdraw
    obtain ⟨hfb, -, -⟩ := hdraw
    rw [← hfb] at hb
    cases hb

/-- Claim C7, witness: the invariant at the freshly built one-card deck. -/
theorem claim_C7_witness :
    miniDeck.getDeckSize = (miniDeck.deck.length : Int) :=
  (claim_C7_size_inv (Reachable.init (fun _ => 0))).1

/-- Claim C8 (amended): building the standard 52-card variation deck with
`randomInit = false` yields size 52 and, since `Deck.__init__` enumerates
`dir()`'s alphabetically sorted symbolic keys (not insertion order), the
first card in canonical order is the Ace of CLUBS — the alphabetically
first suit — with name `A♧` under the concatenating name scheme.  (The
original claim names `A♤`, the Ace of SPADES; see the counterexample.) -/
theorem claim_C8_standard_first_card :
    (Deck.init STANDARD_52 false (fun _ => 0)).getDeckSize = 52 ∧
    ((Deck.init STANDARD_52 false (fun _ => 0)).deck.head?.map Card.name) = some "A♧" ∧
    ((Deck.init STANDARD_52 false (fun _ => 0)).deck.head?.map
        (fun c => (c.value, c.rank))) = some ("A", "♧") := by
  decide

/-- Claim C8, counterexample: the first card of the canonical standard
52-card deck is not named `A♤` (it is `A♧`: `dir` sorts the suit keys
alphabetically and CLUBS precedes SPADES). -/
theorem claim_C8_counterexample :
    ((Deck.init STANDARD_52 false (fun _ => 0)).deck.head?.map Card.name) ≠ some "A♤" := by
  decide

/-- Claim C9 (amended): `CardVariation.__init__` performs no validation at
all: a variation whose hierarchy keys are missing from the corresponding
values/ranks mapping is constructed successfully — the constructor stores
the four mappings verbatim — and the result is usable: deck construction
reads only the values, ranks and name scheme, so it builds the same cards
as it would with empty hierarchies.  (The original claim, a configuration
error at construction time, is refuted by the counterexample.) -/
theorem claim_C9_no_validation (cardValues cardRanks : List (String × String))
    (valueHierarchy rankHierarchy : List (String × Int)) (priority nameScheme : String) :
    CardVariation.init cardValues cardRanks valueHierarchy rankHierarchy priority nameScheme =
      { VALUES := cardValues, RANKS := cardRanks,
        VALUE_HIERARCHY := valueHierarchy, RANK_HIERARCHY := rankHierarchy,
        PRIORITY := priority, NAME_SCHEME := nameScheme } ∧
    (buildDeck (CardVariation.init cardValues cardRanks valueHierarchy rankHierarchy
        priority nameScheme)).map (fun c => (c.value, c.rank, c.name)) =
      (buildDeck (CardVariation.init cardValues cardRanks [] [] priority nameScheme)).map
        (fun c => (c.value, c.rank, c.name)) := by
  refine ⟨rfl, ?_⟩
  simp only [buildDeck, CardVariation.init, List.map_flatMap, List.map_map]
  congr 1

/-- Claim C9, counterexample: the variation whose value hierarchy names the
key `FOO`, absent from its values mapping, fails the spec's configuration
validity check, yet it is constructed (no error path exists in
`CardVariation.__init__`) and is fully usable: the deck built from it holds
its one expected card. -/
theorem claim_C9_counterexample :
    hierarchyKeysConsistent invalidHierVariation = false ∧
    (buildDeck invalidHierVariation).length = 1 ∧
    (buildDeck invalidHierVariation).map Card.name = ["A♤"] := by
  decide

/-- Claim C10: for negative `n`, `draw n` on a consistent deck returns the
failure indicator with an empty list and leaves the card sequence itself
unchanged, yet it *increases* the stored size counter by `|n|` (the guard
`length >= n` passes and `length -= n` adds `|n|`), so the reported size no
longer equals the number of cards remaining; the success flag is `false`
as no card was removed. -/
theorem claim_C10_negative_draw (s : Deck) (n : Int) (hn : n < 0)
    (hwf : s.getDeckSize = (s.deck.length : Int)) :
    Deck.draw s n = some (false, [], { s with length := s.length - n }) ∧
    s.length - n = s.length + (n.natAbs : Int) ∧
    ({ s with length := s.length - n } : Deck).deck = s.deck ∧
    ({ s with length := s.length - n } : Deck).getDeckSize ≠
      (({ s with length := s.length - n } : Deck).deck.length : Int) := by
  rw [Deck.getDeckSize] at hwf
  refine ⟨?_, by omega, rfl, by simp only [Deck.getDeckSize]; omega⟩
  rw [Deck.draw, if_pos (by omega)]
  have h0 : n.toNat = 0 := Int.toNat_eq_zero.mpr (le_of_lt hn)
  rw [h0]
  rfl

/-- Claim C10, witness: `draw (-3)` on the one-card deck. -/
theorem claim_C10_witness :
    ((-3 : Int) < 0) ∧ miniDeck.getDeckSize = (miniDeck.deck.length : Int) ∧
    (Deck.draw miniDeck (-3) = some (false, [], { miniDeck with length := miniDeck.length - (-3) }) ∧
     miniDeck.length - (-3) = miniDeck.length + (((-3 : Int).natAbs : Int)) ∧
     ({ miniDeck with length := miniDeck.length - (-3) } : Deck).deck = miniDeck.deck ∧
     ({ miniDeck with length := miniDeck.length - (-3) } : Deck).getDeckSize ≠
       (({ miniDeck with length := miniDeck.length - (-3) } : Deck).deck.length : Int)) :=
  ⟨by decide, by decide, claim_C10_negative_draw miniDeck (-3) (by decide) (by decide)⟩
